import Mathlib

/-!
# Verification of the caption segmentation and timing engine

Shallow embedding of the deterministic core of the `Captions` repository:

* `src/api/caption_openai.py` — `generate_captions` (chunk loop, micro-caption
  builder, `_dedup`, smoothing pass, final end bump), `fallback_segment_text`,
  `chunk_audio`;
* `src/caption.py` — the final overlap pass (lines 95..97) and the keyword
  highlighting substitution (lines 76..81);
* `src/api/caption_whisper.py` — the keyword highlighting substitution
  (lines 60..65).

Times are embedded as rationals (Python floats are IEEE doubles; all concrete
inputs used below are exactly representable and no proof depends on float
rounding error).  Python's `round(x, 2)` is embedded as rounding to a
multiple of 1/100; Python rounds half-to-even while `round2` below rounds
half up — the two differ only at exact half-cent values, which no input used
here produces.  External effects (file I/O, the Whisper / GPT network calls,
audio decoding) are stripped: the per-chunk transcription results are the
input of the embedded pipeline, and the GPT punctuation rewriter of the
fallback path is an explicit function parameter `gpt` (its `except` branch in
the source is `gpt = id`).
-/

set_option autoImplicit false

/-- A word-level timestamp entry of a Whisper `verbose_json` segment:
`{"word": ..., "start": ..., "end": ...}`.  `stop` embeds the `"end"` key
(`end` is a Lean keyword). -/
structure Word where
  word : String
  start : ℚ
  stop : ℚ
deriving DecidableEq, Repr

/-- One transcription segment: its (possibly empty) word list and its
`"end"` value; the source reads the latter with `seg.get("end", 0)`, so a
missing key is `none`. -/
structure Seg where
  words : List Word
  stop : Option ℚ
deriving DecidableEq, Repr

/-- The transcription result for one audio chunk: the `"segments"` list
(`d.get("segments") or []`) and the `"text"` field (`d.get("text", "")`). -/
structure ChunkResult where
  segs : List Seg
  text : String
deriving DecidableEq, Repr

/-- One emitted caption cue `{"start": ..., "end": ..., "text": ...}`;
`stop` embeds the `"end"` key. -/
structure Cue where
  start : ℚ
  stop : ℚ
  text : String
deriving DecidableEq, Repr

/-- Floor of a rational, computed on the normalized numerator and
denominator (Euclidean division by the positive denominator). -/
def floorQ (q : ℚ) : ℤ := q.num.ediv (q.den : ℤ)

/-- Python `round(q, 2)`: round to a multiple of 1/100 (see the module
comment for the tie-breaking caveat). -/
def round2 (q : ℚ) : ℚ := (floorQ (q * 100 + 1 / 2) : ℚ) / 100

/-- Python `s[-n:]` for `1 ≤ n ≤ len(s)`: the last `n` characters. -/
def strTakeRight (s : String) (n : ℕ) : String := s.drop (s.length - n)

/-- Python `str.lower()` (ASCII-faithful; all texts handled here are ASCII). -/
def pyLower (s : String) : String := String.mk (s.data.map Char.toLower)

/-- Python `str.strip()`: remove leading and trailing whitespace. -/
def pyStrip (s : String) : String :=
  String.mk (((s.data.dropWhile Char.isWhitespace).reverse.dropWhile Char.isWhitespace).reverse)

/-- Tokenizer of Python `str.split()` (no argument): split on whitespace
runs, producing no empty tokens; `cur` holds the current token reversed. -/
def pySplitAux (cur : List Char) : List Char → List String
  | [] => if cur.isEmpty then [] else [String.mk cur.reverse]
  | c :: cs =>
    if c.isWhitespace then
      if cur.isEmpty then pySplitAux [] cs
      else String.mk cur.reverse :: pySplitAux [] cs
    else pySplitAux (c :: cur) cs

/-- The scan of `_dedup` (`src/api/caption_openai.py` lines 138..142):
`for i in range(min(len(prev), len(new)), 0, -1)`, returning the first
(i.e. largest) `i` whose case-insensitive suffix/prefix comparison matches,
else `0`. -/
def dedupOverlapLen (prev t : String) : ℕ → ℕ
  | 0 => 0
  | i + 1 =>
    if pyLower (strTakeRight prev (i + 1)) = pyLower (t.take (i + 1)) then i + 1
    else dedupOverlapLen prev t i

/-- `_dedup(prev_text, new_text)` (`src/api/caption_openai.py` lines
136..143): drop the overlap and `strip()` the remainder. -/
def dedup (prev t : String) : String :=
  pyStrip (t.drop (dedupOverlapLen prev t (Nat.min prev.length t.length)))

/-- The identity punctuation rewriter: the `except` branch of the GPT call
(`punctuated = text`). -/
def gptId : String → String := id

/-- `re.search(r"[.!?]$", word_text)` on a newline-free word: the last
character is `.`, `!` or `?`. -/
def endsPunct (s : String) : Bool :=
  match s.data.getLast? with
  | some c => c = '.' || c = '!' || c = '?'
  | none => false

/-- The running emission state inside one chunk: `last_text` and the
accumulated `segments_all`. -/
structure EmitState where
  lastText : String
  acc : List Cue
deriving DecidableEq, Repr

/-- The running state across chunks: `offset`, `last_text`, `segments_all`. -/
structure PipeState where
  offset : ℚ
  lastText : String
  acc : List Cue
deriving DecidableEq, Repr

/-- One cue emission (`src/api/caption_openai.py` lines 208..217 and
222..231): join was already done by the caller, dedup against `last_text`,
emit only if non-empty, rebase by `offset` and round. -/
def emit1 (off : ℚ) (st : EmitState) (s e : ℚ) (raw : String) : EmitState :=
  let t := dedup st.lastText raw
  if t = "" then st
  else
    { lastText := t
      acc := st.acc ++ [{ start := round2 (s + off), stop := round2 (e + off), text := t }] }

/-- `words[-1]["end"]` of a segment's word list (`0` for the empty list,
which the caller has excluded). -/
def wordsLastStop (ws : List Word) : ℚ := (ws.getLast?).elim 0 (fun w => w.stop)

/-- The word loop of `generate_captions` (`src/api/caption_openai.py`
lines 194..231): accumulate stripped words into `chunk`, remember the first
word's start in `cs` (`chunk_start`), close the group at 3 words or terminal
punctuation, and flush the remainder with `words[-1]["end"]` (passed in as
`lastStop`) as its end. -/
def processWords (off lastStop : ℚ) (st : EmitState) (chunk : List String)
    (cs : Option ℚ) : List Word → EmitState
  | [] =>
    if chunk.isEmpty then st
    else emit1 off st (cs.getD 0) lastStop (pyStrip (String.intercalate (" ") chunk))
  | w :: ws =>
    let wt := pyStrip w.word
    let cs' := match cs with
      | none => some w.start
      | some x => some x
    let chunk' := chunk ++ [wt]
    if chunk'.length ≥ 3 || endsPunct wt then
      processWords off lastStop
        (emit1 off st (cs'.getD 0) w.stop (pyStrip (String.intercalate (" ") chunk')))
        [] none ws
    else
      processWords off lastStop st chunk' cs' ws

/-- The group boundaries of the word loop, without the emission state: the
raw `(chunk_start, chunk_end, joined text)` triple of every group the loop
closes (in order), the flushed remainder last. -/
def rawGroups (lastStop : ℚ) (chunk : List String) (cs : Option ℚ) :
    List Word → List (ℚ × ℚ × String)
  | [] =>
    if chunk.isEmpty then []
    else [(cs.getD 0, lastStop, pyStrip (String.intercalate (" ") chunk))]
  | w :: ws =>
    let wt := pyStrip w.word
    let cs' := match cs with
      | none => some w.start
      | some x => some x
    let chunk' := chunk ++ [wt]
    if chunk'.length ≥ 3 || endsPunct wt then
      (cs'.getD 0, w.stop, pyStrip (String.intercalate (" ") chunk'))
        :: rawGroups lastStop [] none ws
    else
      rawGroups lastStop chunk' cs' ws

/-- Sequential emission over raw group triples: the deduplicator applied to
every consecutively emitted cue (spec §4.5). -/
def emitRaw (off : ℚ) (st : EmitState) : List (ℚ × ℚ × String) → EmitState
  | [] => st
  | (s, e, raw) :: rest => emitRaw off (emit1 off st s e raw) rest

/-- Per-segment step of the chunk loop: segments with no words are skipped
(`if "words" not in seg or not seg["words"]: continue`). -/
def segStep (off : ℚ) (es : EmitState) (seg : Seg) : EmitState :=
  if seg.words.isEmpty then es
  else processWords off (wordsLastStop seg.words) es [] none seg.words

/-- Python `str.split()`: split on whitespace runs, no empty tokens. -/
def pySplit (s : String) : List String := pySplitAux [] s.data

/-- The slice loop of `fallback_segment_text`
(`src/api/caption_openai.py` lines 112..121), with an explicit fuel
(`≥` the word count, so never exhausted): take `wps` words per slice, each
slice `avg` seconds long, carrying the unrounded running `start`. -/
def fallbackGo (avg : ℚ) (wps : ℕ) : ℕ → ℚ → List String → List Cue
  | _, _, [] => []
  | 0, _, _ :: _ => []
  | fuel + 1, start, w :: ws =>
    { start := round2 start
      stop := round2 (start + avg)
      text := (pyStrip (String.intercalate (" ") (w :: ws.take (wps - 1)))) }
      :: fallbackGo avg wps fuel (start + avg) (ws.drop (wps - 1))

/-- `fallback_segment_text(text, audio_path, words_per_segment)`
(`src/api/caption_openai.py` lines 100..124) with the audio file replaced
by its duration in seconds (`duration_sec = len(audio) / 1000`):
`n_segments = max(1, len(words) // wps)`, `avg_dur = duration / n_segments`,
then one slice per `range(0, len(words), wps)` step. -/
def fallback_segment_text (text : String) (durationSec : ℚ) (wps : ℕ) : List Cue :=
  let words := pySplit text
  if words.isEmpty then []
  else
    let nSegments : ℕ := Nat.max 1 (words.length / wps)
    let avgDur : ℚ := durationSec / (nSegments : ℚ)
    fallbackGo avgDur wps words.length 0 words

/-- The body of the chunk loop of `generate_captions`
(`src/api/caption_openai.py` lines 160..233), minus file handling and the
network call: a chunk with no segments and no text raises; a chunk with no
segments but text goes through the fallback segmenter (its cues are appended
unrebased, `offset` and `last_text` untouched, as `continue` skips the
`offset +=` line); a chunk with segments runs the word loop per segment and
then advances `offset` by `segs[-1].get("end", 0)`. -/
def chunkStep (gpt : String → String) (audioDur : ℚ) (st : PipeState)
    (c : ChunkResult) : Except String PipeState :=
  if c.segs.isEmpty then
    let text := pyStrip c.text
    if text = "" then .error ("❌ No transcription text returned from Whisper API.")
    else
      let punctuated := gpt text
      .ok { st with acc := st.acc ++ fallback_segment_text punctuated audioDur 7 }
  else
    let es := c.segs.foldl (segStep st.offset) { lastText := st.lastText, acc := st.acc }
    .ok { offset := st.offset + ((c.segs.getLast?).elim 0 (fun s => s.stop.getD 0))
          lastText := es.lastText
          acc := es.acc }

/-- The chunk loop folded over all chunk results. -/
def processChunks (gpt : String → String) (audioDur : ℚ) :
    PipeState → List ChunkResult → Except String PipeState
  | st, [] => .ok st
  | st, c :: cs =>
    match chunkStep gpt audioDur st c with
    | .error e => .error e
    | .ok st' => processChunks gpt audioDur st' cs

/-- The smoothing pass of `src/api/caption_openai.py` lines 241..243
(`if start < prev_end: start = prev_end + 0.08`), threading the corrected
previous cue. -/
def smoothAux (prev : Cue) : List Cue → List Cue
  | [] => []
  | c :: rest =>
    if c.start < prev.stop then
      { c with start := prev.stop + 0.08 } :: smoothAux { c with start := prev.stop + 0.08 } rest
    else c :: smoothAux c rest

/-- The smoothing pass entry point (`for j in range(1, len(segments_all))`). -/
def smooth : List Cue → List Cue
  | [] => []
  | c :: rest => c :: smoothAux c rest

/-- The final pass of `src/caption.py` lines 95..97, whose condition is
`start <= prev_end` instead of `<`. -/
def smoothCapAux (prev : Cue) : List Cue → List Cue
  | [] => []
  | c :: rest =>
    if c.start ≤ prev.stop then
      { c with start := prev.stop + 0.08 } :: smoothCapAux { c with start := prev.stop + 0.08 } rest
    else c :: smoothCapAux c rest

/-- The final pass of `src/caption.py` lines 95..97. -/
def smoothCap : List Cue → List Cue
  | [] => []
  | c :: rest => c :: smoothCapAux c rest

/-- `segments_all[-1]["end"] += 0.4` (`src/api/caption_openai.py` line 245). -/
def bumpLast : List Cue → List Cue
  | [] => []
  | [c] => [{ c with stop := c.stop + 0.4 }]
  | c :: c' :: rest => c :: bumpLast (c' :: rest)

/-- The deterministic core of `generate_captions`
(`src/api/caption_openai.py` lines 128..248): run the chunk loop from the
zero state, raise if nothing was emitted, then smooth and bump the last end. -/
def generate_captions_core (gpt : String → String) (audioDur : ℚ)
    (chunks : List ChunkResult) : Except String (List Cue) :=
  match processChunks gpt audioDur { offset := 0, lastText := "", acc := [] } chunks with
  | .error e => .error e
  | .ok st =>
    if st.acc.isEmpty then .error ("❌ No segments returned from Whisper API.")
    else .ok (bumpLast (smooth st.acc))

/-- `True` iff the run raised. -/
def isError {α : Type} : Except String α → Bool
  | .error _ => true
  | .ok _ => false

/-- Adjacent-cue non-overlap: every cue starts no earlier than the previous
cue's end. -/
def adjOK : List Cue → Bool
  | [] => true
  | [_] => true
  | a :: b :: rest => (a.stop ≤ b.start) && adjOK (b :: rest)

/-- Adjacent-cue gap invariant of spec §3: every cue starts at least
`GAP = 0.08` after the previous cue's end. -/
def gapOK : List Cue → Bool
  | [] => true
  | [_] => true
  | a :: b :: rest => (a.stop + 0.08 ≤ b.start) && gapOK (b :: rest)

/-- Sum of cue durations. -/
def sumDur (l : List Cue) : ℚ := (l.map (fun c => c.stop - c.start)).sum

/-- `chunk_audio` (`src/api/caption_openai.py` lines 60..68) reduced to its
chunking plan on the audio length in milliseconds: one `(offset, duration)`
pair per `i in range(0, len(audio), max_ms)`, the slice `audio[i:i+max_ms]`
having length `min(max_ms, len - i)`. -/
def chunk_plan (lenMs maxMs : ℕ) : List (ℕ × ℕ) :=
  (List.range ((lenMs + maxMs - 1) / maxMs)).map
    (fun j => (j * maxMs, Nat.min maxMs (lenMs - j * maxMs)))

/-- Claim-side group structure of the micro-caption builder (spec §4.4 /
claim C8): accumulate words into the current group; close the group when it
reaches 3 words or the current (stripped) word ends in terminal punctuation;
a non-empty remainder is the final group. -/
def claimGroups (acc : List Word) : List Word → List (List Word)
  | [] => if acc.isEmpty then [] else [acc]
  | w :: ws =>
    let acc' := acc ++ [w]
    if acc'.length ≥ 3 || endsPunct (pyStrip w.word) then acc' :: claimGroups [] ws
    else claimGroups acc' ws

/-- Claim-side cue data of one group: start is the first word's start, end
is the last word's end, text is the stripped words joined by single spaces
(then stripped). -/
def tripleOfGroup (g : List Word) : ℚ × ℚ × String :=
  ((g.head?).elim 0 (fun w => w.start),
   (g.getLast?).elim 0 (fun w => w.stop),
   pyStrip (String.intercalate (" ") (g.map (fun w => pyStrip w.word))))

/-- Claim-side raw cue list of a word stream. -/
def claimTriples (ws : List Word) : List (ℚ × ℚ × String) :=
  (claimGroups [] ws).map tripleOfGroup

/-- The fixed highlight vocabulary
(`src/caption.py` line 77, `src/api/caption_whisper.py` line 61, in
alternation order). -/
def kwList : List String :=
  [("AI"), ("work"), ("money"), ("content"), ("effort"),
   ("manual"), ("shorts"), ("video"), ("build"), ("create")]

/-- A regex word character (`\w`), restricted to ASCII as all cue texts
handled here are ASCII. -/
def isWordChar (c : Char) : Bool := c.isAlphanum || c = '_'

/-- Try to match one vocabulary word case-insensitively at the head of
`cs`, requiring a word boundary after the match; returns the matched
characters (original case) and the rest. -/
def tryKw (cs : List Char) (kw : String) : Option (List Char × List Char) :=
  let k := kw.data
  let pre := cs.take k.length
  if pre.map Char.toLower = k.map Char.toLower then
    match cs.drop k.length with
    | [] => some (pre, [])
    | d :: ds => if isWordChar d then none else some (pre, d :: ds)
  else none

/-- First vocabulary word matching at the head of `cs` (Python alternation
tries the alternatives left to right). -/
def matchKw (cs : List Char) : Option (List Char × List Char) :=
  kwList.findSome? (tryKw cs)

/-- The scan of `re.sub(r"\b(AI|work|...)\b", repl, text, flags=IGNORECASE)`:
left-to-right, `pw` records whether the previous character was a word
character (no match may start after one — the leading `\b`); each match is
replaced by `f` applied to the matched text.  `fuel` is an explicit bound
(`≥` the list length, so never exhausted) making the recursion structural:
every step consumes at least one character. -/
def highlightGo (f : String → String) : ℕ → Bool → List Char → List Char
  | _, _, [] => []
  | 0, _, l => l
  | fuel + 1, pw, c :: rest =>
    if pw then c :: highlightGo f fuel (isWordChar c) rest
    else
      match matchKw (c :: rest) with
      | some (m, rest') => (f (String.mk m)).data ++ highlightGo f fuel true rest'
      | none => c :: highlightGo f fuel (isWordChar c) rest

/-- Apply the keyword substitution to a whole string. -/
def applyHighlight (f : String → String) (s : String) : String :=
  String.mk (highlightGo f s.length false s.data)

/-- The replacement template of `src/api/caption_whisper.py` lines 60..65
and `src/api/caption.py` lines 60..65, `r"{\\c&H00FFFF&}\1{\\c&HFFFFFF&}"`:
`\1` back-references the matched word, so the word is echoed between the
two color tags. -/
def replWhisper (m : String) : String :=
  ("\x7b\\c&H00FFFF&\x7d") ++ m ++ ("\x7b\\c&HFFFFFF&\x7d")

/-- The replacement template of `src/caption.py` lines 76..81,
`r"{\\c&H00FFFF&}\\1{\\c&HFFFFFF&}"`: the doubled backslash escapes the
back-reference, so `re.sub` inserts the two literal characters `\` `1`
instead of the matched word (which is deleted). -/
def replCaption (_ : String) : String :=
  ("\x7b\\c&H00FFFF&\x7d\\1\x7b\\c&HFFFFFF&\x7d")

/-- The keyword highlighting of `src/caption.py` lines 76..81. -/
def highlightPy (s : String) : String := applyHighlight replCaption s

/-- The keyword highlighting of `src/api/caption_whisper.py` lines
60..65. -/
def highlightWhisper (s : String) : String := applyHighlight replWhisper s

theorem adjOK_smoothAux (l : List Cue) : ∀ prev : Cue, adjOK (prev :: smoothAux prev l) = true := by
  induction l with
  | nil => intro prev; simp [smoothAux, adjOK]
  | cons c rest ih =>
    intro prev
    by_cases h : c.start < prev.stop
    · simp only [smoothAux, if_pos h, adjOK, Bool.and_eq_true, decide_eq_true_eq]
      constructor
      · show prev.stop ≤ prev.stop + 0.08
        have : (0 : ℚ) ≤ 0.08 := by norm_num
        linarith
      · exact ih _
    · simp only [smoothAux, if_neg h, adjOK, Bool.and_eq_true, decide_eq_true_eq]
      exact ⟨le_of_not_lt h, ih _⟩

theorem adjOK_smooth (l : List Cue) : adjOK (smooth l) = true := by
  cases l with
  | nil => simp [smooth, adjOK]
  | cons c rest => simpa [smooth] using adjOK_smoothAux rest c

theorem adjOK_bumpLast : ∀ l : List Cue, adjOK l = true → adjOK (bumpLast l) = true := by
  intro l
  induction l with
  | nil => simp [bumpLast]
  | cons a rest ih =>
    cases rest with
    | nil => intro h; simp [bumpLast, adjOK]
    | cons b rest' =>
      intro h
      simp only [adjOK, Bool.and_eq_true, decide_eq_true_eq] at h
      cases rest' with
      | nil =>
        simp only [bumpLast, adjOK, Bool.and_eq_true, decide_eq_true_eq]
        exact ⟨h.1, by trivial⟩
      | cons c rest'' =>
        have hb := ih h.2
        simp only [bumpLast] at hb ⊢
        simp only [adjOK, Bool.and_eq_true, decide_eq_true_eq] at hb ⊢
        exact ⟨h.1, hb⟩

theorem smoothAux_idem (l : List Cue) :
    ∀ prev : Cue, smoothAux prev (smoothAux prev l) = smoothAux prev l := by
  induction l with
  | nil => intro prev; simp [smoothAux]
  | cons c rest ih =>
    intro prev
    by_cases h : c.start < prev.stop
    · rw [smoothAux, if_pos h, smoothAux,
        if_neg (show ¬({ c with start := prev.stop + 0.08 } : Cue).start < prev.stop by
          show ¬prev.stop + 0.08 < prev.stop
          have : (0 : ℚ) ≤ 0.08 := by norm_num
          intro hc
          linarith)]
      rw [ih]
    · rw [smoothAux, if_neg h, smoothAux, if_neg h, ih]

theorem smoothAux_id_of_gap (l : List Cue) :
    ∀ prev : Cue, gapOK (prev :: l) = true → smoothAux prev l = l := by
  induction l with
  | nil => intro prev _; simp [smoothAux]
  | cons c rest ih =>
    intro prev h
    simp only [gapOK, Bool.and_eq_true, decide_eq_true_eq] at h
    have hge : ¬c.start < prev.stop := by
      have : (0 : ℚ) < 0.08 := by norm_num
      intro hc
      linarith [h.1]
    rw [smoothAux, if_neg hge, ih c]
    cases rest with
    | nil => simp [gapOK]
    | cons d rest' =>
      simp only [gapOK, Bool.and_eq_true, decide_eq_true_eq] at h ⊢
      exact h.2

theorem smoothCapAux_idem (l : List Cue) :
    ∀ prev : Cue, smoothCapAux prev (smoothCapAux prev l) = smoothCapAux prev l := by
  induction l with
  | nil => intro prev; simp [smoothCapAux]
  | cons c rest ih =>
    intro prev
    by_cases h : c.start ≤ prev.stop
    · rw [smoothCapAux, if_pos h, smoothCapAux,
        if_neg (show ¬({ c with start := prev.stop + 0.08 } : Cue).start ≤ prev.stop by
          show ¬prev.stop + 0.08 ≤ prev.stop
          have : (0 : ℚ) < 0.08 := by norm_num
          intro hc
          linarith)]
      rw [ih]
    · rw [smoothCapAux, if_neg h, smoothCapAux, if_neg h, ih]

theorem smoothCapAux_id_of_gap (l : List Cue) :
    ∀ prev : Cue, gapOK (prev :: l) = true → smoothCapAux prev l = l := by
  induction l with
  | nil => intro prev _; simp [smoothCapAux]
  | cons c rest ih =>
    intro prev h
    simp only [gapOK, Bool.and_eq_true, decide_eq_true_eq] at h
    have hge : ¬c.start ≤ prev.stop := by
      have : (0 : ℚ) < 0.08 := by norm_num
      intro hc
      linarith [h.1]
    rw [smoothCapAux, if_neg hge, ih c]
    cases rest with
    | nil => simp [gapOK]
    | cons d rest' =>
      simp only [gapOK, Bool.and_eq_true, decide_eq_true_eq] at h ⊢
      exact h.2

/-- C7: the final overlap-resolution pass is idempotent — applying the
smoothing loop of `src/api/caption_openai.py` (lines 241..243) or the final
pass of `src/caption.py` (lines 95..97) twice yields the same sequence as
applying it once, and applying either to an already ordered, gap-separated
sequence changes nothing. -/
theorem C7_overlap_pass_idempotent :
    (∀ l : List Cue, smooth (smooth l) = smooth l) ∧
    (∀ l : List Cue, smoothCap (smoothCap l) = smoothCap l) ∧
    (∀ l : List Cue, gapOK l = true → smooth l = l) ∧
    (∀ l : List Cue, gapOK l = true → smoothCap l = l) := by
  refine ⟨fun l => ?_, fun l => ?_, fun l h => ?_, fun l h => ?_⟩
  · cases l with
    | nil => rfl
    | cons c rest => simp only [smooth]; rw [smoothAux_idem]
  · cases l with
    | nil => rfl
    | cons c rest => simp only [smoothCap]; rw [smoothCapAux_idem]
  · cases l with
    | nil => rfl
    | cons c rest => simp only [smooth]; rw [smoothAux_id_of_gap rest c h]
  · cases l with
    | nil => rfl
    | cons c rest => simp only [smoothCap]; rw [smoothCapAux_id_of_gap rest c h]

/-- Witness for C7 at a concrete gap-separated sequence. -/
theorem C7_witness :
    gapOK [⟨0, 1, ("a")⟩, ⟨1.08, 2, ("b")⟩] = true ∧
    smooth [⟨0, 1, ("a")⟩, ⟨1.08, 2, ("b")⟩] = [⟨0, 1, ("a")⟩, ⟨1.08, 2, ("b")⟩] ∧
    smoothCap [⟨0, 1, ("a")⟩, ⟨1.08, 2, ("b")⟩] = [⟨0, 1, ("a")⟩, ⟨1.08, 2, ("b")⟩] :=
  ⟨by with_unfolding_all decide,
   C7_overlap_pass_idempotent.2.2.1 _ (by with_unfolding_all decide),
   C7_overlap_pass_idempotent.2.2.2 _ (by with_unfolding_all decide)⟩

/-- C1 (amended): every cue list returned by `generate_captions`
(`src/api/caption_openai.py`) is non-overlapping — each cue starts no
earlier than the previous cue's end; the `0.08` gap itself is added only to
cues whose start would otherwise precede the previous end (see
`C1_counterexample`). -/
theorem C1_no_overlap (gpt : String → String) (dur : ℚ)
    (chunks : List ChunkResult) (cues : List Cue)
    (h : (generate_captions_core gpt dur chunks).toOption = some cues) :
    adjOK cues = true := by
  unfold generate_captions_core at h
  cases hp : processChunks gpt dur { offset := 0, lastText := "", acc := [] } chunks with
  | error e => rw [hp] at h; simp [Except.toOption] at h
  | ok st =>
    rw [hp] at h
    by_cases he : st.acc.isEmpty
    · simp [Except.toOption, he] at h
    · simp [Except.toOption, he] at h
      rw [← h]
      exact adjOK_bumpLast _ (adjOK_smooth _)

/-- Witness for C1 (amended) at a concrete one-chunk transcript. -/
theorem C1_witness : adjOK [⟨0, 1.4, ("Hi.")⟩] = true :=
  C1_no_overlap gptId 0 [⟨[⟨[⟨("Hi."), 0, 1⟩], some 1⟩], ("x")⟩] _
    (by with_unfolding_all decide)

/-- C1 counterexample: a run of `generate_captions` whose output violates
`cue[i+1].start ≥ cue[i].end + GAP` — the two words of the input segment are
0.05 s apart, the smoothing condition `start < prev_end` does not fire, and
the returned cues are only 0.05 s apart. -/
theorem C1_counterexample :
    (generate_captions_core gptId 0
      [⟨[⟨[⟨("a"), 0, 1⟩, ⟨("b"), 1, 2⟩, ⟨("c"), 2, 3⟩, ⟨("d."), 3.05, 4⟩], some 4⟩],
        ("x")⟩]).toOption =
      some [⟨0, 3, ("a b c")⟩, ⟨3.05, 4.4, ("d.")⟩] ∧
    gapOK [⟨0, 3, ("a b c")⟩, ⟨3.05, 4.4, ("d.")⟩] = false ∧
    ¬((3.05 : ℚ) ≥ 3 + 0.08) :=
  ⟨by with_unfolding_all decide, by with_unfolding_all decide, by norm_num⟩

/-- C2: the smoothing pass of `src/api/caption_openai.py` moves an
overlapping cue's start to `prev_end + 0.08` but never adjusts its end, so
`generate_captions` can return a cue with `end < start` (negative duration)
and there is no `MIN_DURATION` clamp: here the second cue comes out as
`[10.08, 1.4]`. -/
theorem C2_negative_duration :
    (generate_captions_core gptId 0
      [⟨[⟨[⟨("Hello."), 0, 10⟩], some 10⟩, ⟨[⟨("there."), 0.5, 1⟩], some 1⟩],
        ("x")⟩]).toOption =
      some [⟨0, 10, ("Hello.")⟩, ⟨10.08, 1.4, ("there.")⟩] ∧
    ((1.4 : ℚ) < 10.08) :=
  ⟨by with_unfolding_all decide, by norm_num⟩

theorem processWords_eq_emitRaw (off lastStop : ℚ) :
    ∀ (ws : List Word) (chunk : List String) (cs : Option ℚ) (st : EmitState),
      processWords off lastStop st chunk cs ws = emitRaw off st (rawGroups lastStop chunk cs ws) := by
  intro ws
  induction ws with
  | nil =>
    intro chunk cs st
    by_cases hc : chunk.isEmpty <;>
      simp [processWords, rawGroups, emitRaw, hc]
  | cons w ws ih =>
    intro chunk cs st
    simp only [processWords, rawGroups]
    by_cases hcl : ((chunk ++ [pyStrip w.word]).length ≥ 3 || endsPunct (pyStrip w.word)) = true
    · simp only [hcl, if_true, emitRaw]
      exact ih [] none _
    · simp only [Bool.not_eq_true] at hcl
      simp only [hcl, Bool.false_eq_true, if_false]
      exact ih (chunk ++ [pyStrip w.word]) _ st

theorem wordsLastStop_append (xs : List Word) (v : Word) (vs : List Word) :
    wordsLastStop (xs ++ v :: vs) = wordsLastStop (v :: vs) := by
  unfold wordsLastStop
  rw [List.getLast?_append_of_ne_nil xs (show v :: vs ≠ [] by simp)]

theorem rawGroups_eq_claimTriples :
    ∀ (ws acc : List Word),
      rawGroups (wordsLastStop (acc ++ ws)) (acc.map (fun w => pyStrip w.word))
        ((acc.head?).map (fun w => w.start)) ws
      = (claimGroups acc ws).map tripleOfGroup := by
  intro ws
  induction ws with
  | nil =>
    intro acc
    cases acc with
    | nil => simp [rawGroups, claimGroups]
    | cons a as => simp [rawGroups, claimGroups, tripleOfGroup, wordsLastStop]
  | cons w ws ih =>
    intro acc
    simp only [rawGroups, claimGroups, List.length_append, List.length_map,
      List.length_cons, List.length_nil, List.map_map]
    by_cases hcl : ((acc.length + 1 ≥ 3 : Bool) || endsPunct (pyStrip w.word)) = true
    · simp only [hcl, if_true, List.map_cons, List.cons.injEq]
      constructor
      · -- head triple
        cases acc with
        | nil =>
          simp [tripleOfGroup]
        | cons a as =>
          have hg : (a :: (as ++ [w])).getLast? = some w := by
            rw [show a :: (as ++ [w]) = (a :: as) ++ [w] from rfl, List.getLast?_concat]
          simp [tripleOfGroup, hg]
      · -- tail
        cases ws with
        | nil => simp [rawGroups, claimGroups]
        | cons v vs =>
          rw [wordsLastStop_append]
          have := ih []
          simpa using this
    · simp only [Bool.not_eq_true] at hcl
      simp only [hcl, Bool.false_eq_true, if_false]
      have h1 : acc ++ w :: ws = (acc ++ [w]) ++ ws := by simp
      rw [h1]
      have := ih (acc ++ [w])
      have h2 : (acc ++ [w]).map (fun w => pyStrip w.word)
          = acc.map (fun w => pyStrip w.word) ++ [pyStrip w.word] := by simp
      have h3 : ((acc ++ [w]).head?).map (fun w => w.start)
          = (match (acc.head?).map (fun w => w.start) with
             | none => some w.start
             | some x => some x) := by
        cases acc <;> simp
      rw [h2, h3] at this
      exact this

theorem dedupOverlapLen_eq_findGreatest (p t : String) :
    ∀ n : ℕ, dedupOverlapLen p t n =
      Nat.findGreatest (fun k => pyLower (strTakeRight p k) = pyLower (t.take k)) n := by
  intro n
  induction n with
  | zero => rfl
  | succ n ih =>
    rw [dedupOverlapLen, Nat.findGreatest_succ]
    by_cases h : pyLower (strTakeRight p (n + 1)) = pyLower (t.take (n + 1))
    · rw [if_pos h, if_pos h]
    · rw [if_neg h, if_neg h, ih]

/-- C6: `_dedup` removes from the front of the new text the longest `k`
characters whose case-insensitive comparison with the last `k` characters of
the previous text matches (`Nat.findGreatest` of the matching predicate),
then strips the remainder; `"machine learning is"` / `"learning is great"`
reduce to `"great"`; and a cue whose deduplicated text is empty is dropped —
the emission step leaves the state untouched. -/
theorem C6_dedup_longest_overlap :
    (∀ p t : String, dedup p t =
      pyStrip (t.drop (Nat.findGreatest
        (fun k => pyLower (strTakeRight p k) = pyLower (t.take k))
        (Nat.min p.length t.length)))) ∧
    dedup ("machine learning is") ("learning is great") = ("great") ∧
    (∀ (off : ℚ) (st : EmitState) (s e : ℚ) (raw : String),
      dedup st.lastText raw = "" → emit1 off st s e raw = st) := by
  refine ⟨fun p t => ?_, by with_unfolding_all decide, fun off st s e raw h => ?_⟩
  · rw [dedup, dedupOverlapLen_eq_findGreatest]
  · simp [emit1, h]

/-- Witness for C6 at a fully repeated cue text. -/
theorem C6_witness :
    dedup ("abc") ("abc") = "" ∧
    emit1 0 ⟨("abc"), []⟩ 0 1 ("abc") = ⟨("abc"), []⟩ :=
  ⟨by with_unfolding_all decide,
   C6_dedup_longest_overlap.2.2 0 ⟨("abc"), []⟩ 0 1 ("abc") (by with_unfolding_all decide)⟩

/-- C8 (amended): the word loop of `generate_captions`
(`src/api/caption_openai.py`) closes a group exactly when it reaches 3 words
or the current stripped word ends in `.`, `!` or `?` (a non-empty remainder
forms the final group); each group is emitted in input order as one cue
whose raw start is the group's first word's start and whose raw end is the
group's last word's end — with no per-cue trailing padding (only the very
last cue of the whole run gets `+0.4` after smoothing; see
`C8_counterexample`). -/
theorem C8_micro_caption_builder (off : ℚ) (st : EmitState) (ws : List Word) :
    processWords off (wordsLastStop ws) st [] none ws = emitRaw off st (claimTriples ws) := by
  rw [processWords_eq_emitRaw]
  congr 1
  have h := rawGroups_eq_claimTriples ws []
  simpa [claimTriples] using h

/-- C8 counterexample: a run of `generate_captions` in which a (non-final)
cue's end equals its group's last word's end exactly — no trailing padding
of 0.25 s or 0.3 s (the paddings appearing in the sources) is added. -/
theorem C8_counterexample :
    (generate_captions_core gptId 0
      [⟨[⟨[⟨("a"), 0, 0.5⟩, ⟨("b"), 0.5, 1⟩, ⟨("c"), 1, 1.5⟩, ⟨("d."), 1.6, 2⟩], some 2⟩],
        ("x")⟩]).toOption =
      some [⟨0, 1.5, ("a b c")⟩, ⟨1.6, 2.4, ("d.")⟩] ∧
    ¬((1.5 : ℚ) = 1.5 + 0.25) ∧ ¬((1.5 : ℚ) = 1.5 + 0.3) :=
  ⟨by with_unfolding_all decide, by norm_num, by norm_num⟩

/-- C10: deduplication is applied at every single emission, not only at
chunk boundaries — the word loop is exactly sequential emission over its raw
group triples, where each emission deduplicates against the running
`last_text` and updates it; concretely, repeated speech inside one segment
of one chunk is stripped (`"machine learning is"` followed by
`"learning is great"` in the same segment emits `"great"`). -/
theorem C10_dedup_every_cue :
    (∀ (off lastStop : ℚ) (st : EmitState) (chunk : List String) (cs : Option ℚ)
        (ws : List Word),
      processWords off lastStop st chunk cs ws = emitRaw off st (rawGroups lastStop chunk cs ws)) ∧
    (∀ (off : ℚ) (st : EmitState) (s e : ℚ) (raw : String),
      (emit1 off st s e raw).lastText =
        if dedup st.lastText raw = "" then st.lastText else dedup st.lastText raw) ∧
    (generate_captions_core gptId 0
      [⟨[⟨[⟨("machine"), 0, 0.5⟩, ⟨("learning"), 0.5, 1⟩, ⟨("is"), 1, 1.5⟩,
          ⟨("learning"), 1.5, 2⟩, ⟨("is"), 2, 2.5⟩, ⟨("great"), 2.5, 3⟩], some 3⟩],
        ("x")⟩]).toOption =
      some [⟨0, 1.5, ("machine learning is")⟩, ⟨1.5, 3.4, ("great")⟩] := by
  refine ⟨fun off lastStop st chunk cs ws => processWords_eq_emitRaw off lastStop ws chunk cs st,
    fun off st s e raw => ?_, by with_unfolding_all decide⟩
  by_cases h : dedup st.lastText raw = "" <;> simp [emit1, h]

/-- C3 (amended): a chunk whose transcription result has no timestamped
segments and no text makes `generate_captions` raise — the whole conversion
fails (see `C3_counterexample`); a segment-free chunk with text goes through
the fallback segmenter and leaves the cumulative offset (and `last_text`)
unchanged; a chunk with segments advances the offset by the last segment's
reported `"end"` value (`segs[-1].get("end", 0)`), not by the chunk's known
duration. -/
theorem C3_empty_chunk_behavior (gpt : String → String) (dur : ℚ)
    (st : PipeState) (c : ChunkResult) :
    (c.segs = [] → pyStrip c.text = "" →
      chunkStep gpt dur st c = .error ("❌ No transcription text returned from Whisper API.")) ∧
    (c.segs = [] → pyStrip c.text ≠ "" →
      chunkStep gpt dur st c =
        .ok { offset := st.offset, lastText := st.lastText,
              acc := st.acc ++ fallback_segment_text (gpt (pyStrip c.text)) dur 7 }) ∧
    (c.segs ≠ [] →
      (chunkStep gpt dur st c).toOption.map (fun s => s.offset) =
        some (st.offset + ((c.segs.getLast?).elim 0 (fun s => s.stop.getD 0)))) := by
  refine ⟨fun h1 h2 => ?_, fun h1 h2 => ?_, fun h1 => ?_⟩
  · simp [chunkStep, h1, h2]
  · simp [chunkStep, h1, h2]
  · simp [chunkStep, h1, Except.toOption]

/-- Witness for C3 (amended) at a concrete no-segments, no-text chunk. -/
theorem C3_witness :
    chunkStep gptId 10 ⟨0, (""), []⟩ ⟨[], ("")⟩ =
      .error ("❌ No transcription text returned from Whisper API.") :=
  (C3_empty_chunk_behavior gptId 10 ⟨0, (""), []⟩ ⟨[], ("")⟩).1 rfl
    (by with_unfolding_all decide)

/-- C3 counterexample: one chunk with no segments and no text makes the
whole conversion raise, contradicting "the whole conversion does not
fail". -/
theorem C3_counterexample :
    isError (generate_captions_core gptId 10 [⟨[], ("")⟩]) = true := by
  with_unfolding_all decide

/-- C4: the keyword substitution of `src/caption.py` (lines 76..81) replaces
the matched word `build` by the literal characters `\1` between the color
tags (the word is deleted), while the substitution of
`src/api/caption_whisper.py` (lines 60..65) echoes the matched word between
the color tags. -/
theorem C4_literal_backref :
    highlightPy ("build something") =
      ("\x7b\\c&H00FFFF&\x7d\\1\x7b\\c&HFFFFFF&\x7d something") ∧
    highlightWhisper ("build something") =
      ("\x7b\\c&H00FFFF&\x7dbuild\x7b\\c&HFFFFFF&\x7d something") :=
  ⟨by with_unfolding_all decide, by with_unfolding_all decide⟩

/-- C5: on 8 words with group size 7 and a 10 s chunk,
`fallback_segment_text` emits `ceil(8/7) = 2` slices but divides the
duration by `max(1, 8 // 7) = 1`, so each slice is 10 s long and the
synthesized durations sum to 20 s — double the chunk duration (and the last
slice ends at 20 s, past the end of the audio). -/
theorem C5_fallback_duration_overshoot :
    fallback_segment_text ("w1 w2 w3 w4 w5 w6 w7 w8") 10 7 =
      [⟨0, 10, ("w1 w2 w3 w4 w5 w6 w7")⟩, ⟨10, 20, ("w8")⟩] ∧
    sumDur [⟨0, 10, ("w1 w2 w3 w4 w5 w6 w7")⟩, ⟨10, 20, ("w8")⟩] = 20 ∧
    ¬((20 : ℚ) = 10) :=
  ⟨by with_unfolding_all decide, by with_unfolding_all decide, by norm_num⟩

/-- C9 (amended): a 20-minute track (1 200 000 ms) with a 9-minute chunk
limit (540 000 ms) yields 3 chunks with offsets 0, 540, 1080 s and durations
540, 540, 120 s; and any positive length not exceeding the limit yields
exactly one chunk covering the whole track (a zero-length track yields no
chunks, see `C9_counterexample`). -/
theorem C9_chunk_plan :
    chunk_plan 1200000 540000 = [(0, 540000), (540000, 540000), (1080000, 120000)] ∧
    (chunk_plan 1200000 540000).map (fun p => (p.1 / 1000, p.2 / 1000)) =
      [(0, 540), (540, 540), (1080, 120)] ∧
    (∀ lenMs maxMs : ℕ, 0 < lenMs → lenMs ≤ maxMs → chunk_plan lenMs maxMs = [(0, lenMs)]) := by
  refine ⟨by with_unfolding_all decide, by with_unfolding_all decide, fun L M h1 h2 => ?_⟩
  unfold chunk_plan
  have hdiv : (L + M - 1) / M = 1 := by
    have h3 : 1 * M ≤ L + M - 1 := by omega
    have h4 : L + M - 1 < 2 * M := by omega
    exact Nat.div_eq_of_lt_le h3 h4
  rw [hdiv, show List.range 1 = [0] from rfl]
  simp only [List.map_cons, List.map_nil, List.cons.injEq, Prod.mk.injEq, and_true]
  refine ⟨by omega, ?_⟩
  have hmin : M ⊓ L = L := Nat.min_eq_right h2
  simpa using hmin

/-- Witness for C9 (amended) at a 100 ms track. -/
theorem C9_witness :
    0 < 100 ∧ 100 ≤ 540000 ∧ chunk_plan 100 540000 = [(0, 100)] :=
  ⟨by decide, by decide, C9_chunk_plan.2.2 100 540000 (by decide) (by decide)⟩

/-- C9 counterexample: a zero-length track does not exceed the limit yet
yields zero chunks, not exactly one. -/
theorem C9_counterexample :
    chunk_plan 0 540000 = [] ∧ (chunk_plan 0 540000).length ≠ 1 ∧ (0 : ℕ) ≤ 540000 :=
  ⟨by with_unfolding_all decide, by with_unfolding_all decide, by decide⟩
